import Mathlib

/-!
Shallow embedding of the load-generation and sampling engine of the
ApplePiDiagnostics repository: the RAM diagnostic
(`app/diagnostics/ram/ram_test.py`) and the CPU diagnostic
(`app/diagnostics/cpu/cpu_test.py`).

Modelling conventions:
* Python ints are `Int`/`Nat`; Python floats that only ever hold exact
  byte counts, megabyte ratios or injected measurements are `ℚ`.
* Wall-clock readings are abstracted: `run_ram_test` takes the raw
  elapsed time `time.time() - start_time` as a parameter `elapsedRaw`;
  the per-chunk write/read times and timestamps stored in RAM samples
  are omitted from the sample record (they are pure measurements that
  no downstream computation reads).
* Fallible operations are oracles supplied by the environment:
  `allocFails p off` says whether `bytearray(to_alloc)` raises
  `MemoryError` in pass `p` at byte offset `off`, and `mismatch p off`
  says whether the read-back comparison `buf != pat` reports a
  difference for the chunk starting at `off` in pass `p`.
* The progress callback is invoked inside `try/except Exception: pass`
  in both diagnostics, so it cannot affect any state of the run; it is
  therefore not modelled (its behaviour is the identity on the state).
-/

namespace ApplePi

/-- One megabyte, `1024 * 1024` bytes, as in the source. -/
def MB : Nat := 1024 * 1024

/-- A RAM progress sample: the dict
`{"pass": p + 1, "tested_mb": ..., "chunk_mb": ...}` built once per
chunk in `run_ram_test` (write/read times and the timestamp are
measurement-only fields, omitted here). -/
structure RamSample where
  passIdx : Nat
  tested_mb : ℚ
  chunk_mb : ℚ
deriving DecidableEq

/-- The mutable state threaded through the chunk loop of
`run_ram_test`: the `errors` list, the `samples` list and the running
`tested_mb` value. -/
structure RamState where
  errors : List String
  samples : List RamSample
  tested_mb : ℚ
deriving DecidableEq

/-- The result dict returned by `run_ram_test`. -/
structure RamResult where
  status : String
  tested_mb : ℚ
  errors : List String
  throughput_mb_s : ℚ
  samples : List RamSample
deriving DecidableEq

/-- The inner `while bytes_written < target_bytes` loop of
`run_ram_test`, for pass `p` (0-based).  Each iteration:
`to_alloc = min(chunk, target_bytes - bytes_written)`; on a
`MemoryError` from `bytearray(to_alloc)` it appends
`"Allocation failed at {bytes_written} bytes: {me}"` (the trailing
exception text is nondeterministic and omitted from the model) and
breaks; otherwise it writes the pattern, compares the read-back
(appending `"Data mismatch at offset {bytes_written}"` on a
difference), advances `bytes_written`, updates `tested_mb` and appends
a sample.  `fuel` bounds the number of iterations; since every
iteration writes at least one byte (the caller passes `chunk ≥ 1`),
`fuel = target_bytes` always suffices, so the fuel-free while loop and
this function agree for the arguments `run_ram_test` supplies. -/
def ramPassLoop (allocFails mismatch : Nat → Nat → Bool) (chunk : Nat)
    (target : Int) (p : Nat) : Nat → Nat → RamState → RamState
  | 0, _, st => st
  | fuel + 1, bytesWritten, st =>
    if (bytesWritten : Int) < target then
      let toAlloc : Nat := min chunk (target - (bytesWritten : Int)).toNat
      if allocFails p bytesWritten then
        { st with errors := st.errors ++
            ["Allocation failed at " ++ toString bytesWritten ++ " bytes"] }
      else
        let st1 : RamState :=
          if mismatch p bytesWritten then
            { st with errors := st.errors ++
                ["Data mismatch at offset " ++ toString bytesWritten] }
          else st
        let bw : Nat := bytesWritten + toAlloc
        let tested : ℚ := (bw : ℚ) / (MB : ℚ)
        let st2 : RamState :=
          { st1 with
            tested_mb := tested,
            samples := st1.samples ++ [⟨p + 1, tested, (toAlloc : ℚ) / (MB : ℚ)⟩] }
        ramPassLoop allocFails mismatch chunk target p fuel bw st2
    else st

/-- `safe_limit = int(mem.available * 0.75)`: three quarters of the
available memory, rounded down (`0.75 * available` is exact in binary
floating point for any realistic `available`, and `int` truncates
towards zero, which on a nonnegative value is the floor). -/
def ramSafeLimit (available : Nat) : Int := ((3 * available) / 4 : Nat)

/-- The clamped byte target of `run_ram_test`:
`target_bytes = int(total_mb) * 1024 * 1024`, reduced to
`safe_limit` when `target_bytes > safe_limit`. -/
def ramTarget (available : Nat) (total_mb : Int) : Int :=
  let target0 : Int := total_mb * (MB : Int)
  if target0 > ramSafeLimit available then ramSafeLimit available else target0

/-- `run_ram_test(total_mb, chunk_mb, passes)` from
`app/diagnostics/ram/ram_test.py`.  `available` is
`psutil.virtual_memory().available`, read once at run start;
`elapsedRaw` is the wall-clock difference `time.time() - start_time`
observed at the end.  The outer `try/except Exception` around the pass
loop only matters for exceptions the model has no source of (the
`MemoryError` from `bytearray` is caught by the inner handler, and
callback exceptions are swallowed at the call site), so it is not
modelled. -/
def run_ram_test (available : Nat) (allocFails mismatch : Nat → Nat → Bool)
    (total_mb chunk_mb passes : Int) (elapsedRaw : ℚ) : RamResult :=
  let chunk : Nat := (max 1 chunk_mb).toNat * MB
  let target : Int := ramTarget available total_mb
  let final : RamState :=
    (List.range (max 1 passes).toNat).foldl
      (fun st p => ramPassLoop allocFails mismatch chunk target p target.toNat 0 st)
      ⟨[], [], 0⟩
  let elapsed : ℚ := max (1 / 1000000) elapsedRaw
  let throughput : ℚ := if 0 < elapsed then final.tested_mb / elapsed else 0
  { status := if final.errors.isEmpty then "OK" else "FAIL",
    tested_mb := final.tested_mb,
    errors := final.errors,
    throughput_mb_s := throughput,
    samples := final.samples }

/-- `_make_pattern(size)`: the deterministic pseudo-random byte
pattern, `b[i] = (i * 31 + 17) & 0xFF`. -/
def make_pattern (size : Nat) : List Nat :=
  (List.range size).map fun i => (i * 31 + 17) % 256

/-- Does `sub` occur at the head of the second list? -/
def occursAtHead : List Char → List Char → Bool
  | [], _ => true
  | _ :: _, [] => false
  | a :: as, b :: bs => a == b && occursAtHead as bs

/-- Does `sub` occur as a contiguous run inside the second list? -/
def occursIn (sub : List Char) : List Char → Bool
  | [] => sub.isEmpty
  | c :: cs => occursAtHead sub (c :: cs) || occursIn sub cs

/-- `true` iff `sub` occurs as a contiguous substring of `s`. -/
def strContains (sub s : String) : Bool := occursIn sub.toList s.toList

/-- The allocation-failure oracle of a run whose single `MemoryError`
from `bytearray(to_alloc)` happens in pass `p₀` at byte offset `off₀`:
every other allocation succeeds. -/
def singleAllocFailure (p₀ off₀ : Nat) : Nat → Nat → Bool :=
  fun q off => q == p₀ && off == off₀

/-! ## CPU test (`app/diagnostics/cpu/cpu_test.py`)

The sampling loop of `run_cpu_test` runs on the caller's thread while
the worker processes burn CPU.  Each tick measures per-core
utilisation, computes the average, appends a sample dict
`{"percpu": ..., "avg": ..., "ts": ...}` and calls the progress
callback; callback exceptions are swallowed at the call site.  The
whole `while` loop sits inside one `try`, whose handler appends a
single `{"error": str(e), "ts": ...}` sample.  We model one run's tick
sequence as a list of events: what each iteration of the loop body
would observe, in order, until the loop condition (deadline or stop
event) would become false. -/

/-- One sample dict of the CPU run: either a measurement
`{"percpu": ps, "avg": a, "ts": t}` or an error entry
`{"error": msg, "ts": t}`. -/
inductive CpuSample where
  | data (percpu : List ℚ) (avg : ℚ) (ts : ℚ)
  | err (msg : String) (ts : ℚ)
deriving DecidableEq

/-- One iteration of the CPU sampling loop, as observed from outside:
the measurement succeeds (`ok`), the measurement succeeds but the
progress callback raises (`okCallbackRaises`), or an exception is
raised inside the tick body itself before the sample is appended
(`raises`), e.g. by `psutil.cpu_percent`. -/
inductive TickEvent where
  | ok (percents : List ℚ) (ts : ℚ)
  | okCallbackRaises (percents : List ℚ) (ts : ℚ)
  | raises (msg : String) (ts : ℚ)
deriving DecidableEq

/-- `avg = sum(percents) / len(percents) if percents else 0.0`. -/
def cpuAvg (percents : List ℚ) : ℚ :=
  if percents.isEmpty then 0 else percents.sum / percents.length

/-- The `try: while ... except Exception` sampling loop of
`run_cpu_test`.  A successful tick appends a `data` sample — also when
the progress callback raises, since that exception is swallowed by the
inner `try/except: pass`.  An exception inside the tick body escapes
the `while`, so the handler appends one `err` sample and the loop is
over: the remaining ticks never run. -/
def samplingLoop : List TickEvent → List CpuSample
  | [] => []
  | .ok ps ts :: rest => .data ps (cpuAvg ps) ts :: samplingLoop rest
  | .okCallbackRaises ps ts :: rest => .data ps (cpuAvg ps) ts :: samplingLoop rest
  | .raises msg ts :: _rest => [.err msg ts]

/-- `per_cpu_samples = [s["percpu"] for s in samples if "percpu" in s]`. -/
def perCpuOf (samples : List CpuSample) : List (List ℚ) :=
  samples.filterMap fun s =>
    match s with
    | .data ps _ _ => some ps
    | .err _ _ => none

/-- `avg_samples = [s["avg"] for s in samples if "avg" in s]`. -/
def avgOf (samples : List CpuSample) : List ℚ :=
  samples.filterMap fun s =>
    match s with
    | .data _ a _ => some a
    | .err _ _ => none

/-- The error strings among the samples (the CPU run has no separate
error list: an error is a sample with an `"error"` key). -/
def errorsOf (samples : List CpuSample) : List String :=
  samples.filterMap fun s =>
    match s with
    | .data _ _ _ => none
    | .err m _ => some m

/-- The per-core aggregation of `run_cpu_test`: when at least one
measurement exists, core count is taken from the first measurement and
each core's utilisations are averaged.  (`sample[core_idx]` assumes
every measurement has the same length, which `psutil.cpu_percent`
guarantees; `getD _ 0` stands in for that indexing.) -/
def perCoreAvg (perCpu : List (List ℚ)) : List ℚ :=
  match perCpu with
  | [] => []
  | first :: _ =>
    (List.range first.length).map fun core =>
      (perCpu.map fun s => s.getD core 0).sum / perCpu.length

/-- The result dict returned by `run_cpu_test` (`max_temperature` is a
best-effort external sensor reading that no claim touches; omitted). -/
structure CpuResult where
  status : String
  duration : Int
  workers : Nat
  avg_cpu_percent : ℚ
  per_cpu_percent : List ℚ
  samples_count : Nat
  samples : List CpuSample
deriving DecidableEq

/-- `run_cpu_test(duration, workers, ...)`: runs the sampling loop
over the run's tick sequence, then aggregates.  Note the returned
`status` is the literal `"OK"`, not derived from anything. -/
def run_cpu_test (ticks : List TickEvent) (duration : Int) (workers : Nat) :
    CpuResult :=
  let samples := samplingLoop ticks
  let avgs := avgOf samples
  { status := "OK",
    duration := duration,
    workers := workers,
    avg_cpu_percent := if avgs.isEmpty then 0 else avgs.sum / avgs.length,
    per_cpu_percent := perCoreAvg (perCpuOf samples),
    samples_count := avgs.length,
    samples := samples }

end ApplePi

namespace ApplePi

/-! ## Shared lemmas -/

/-- The status field of a RAM run is literally the emptiness check of its
error list (`status = "OK" if not errors else "FAIL"`). -/
theorem run_ram_test_status_def (available : Nat) (f g : Nat → Nat → Bool)
    (total_mb chunk_mb passes : Int) (e : ℚ) :
    (run_ram_test available f g total_mb chunk_mb passes e).status
      = (if (run_ram_test available f g total_mb chunk_mb passes e).errors.isEmpty
          then "OK" else "FAIL") := rfl

/-- If a run has no measurement samples, it has no `avg` entries either
(`percpu` and `avg` keys always appear together). -/
theorem avgOf_eq_nil_of_perCpuOf_eq_nil {l : List CpuSample}
    (h : perCpuOf l = []) : avgOf l = [] := by
  induction l with
  | nil => rfl
  | cons s l ih =>
    cases s with
    | data ps a ts => simp [perCpuOf] at h
    | err m ts =>
      simp only [perCpuOf, List.filterMap_cons] at h
      simpa [avgOf, List.filterMap_cons] using ih h

/-! ## C1 -/

/-- C1, counterexample: a CPU run whose sample list contains an error
sample (one accumulated error, in the claim's terms) still returns
status `"OK"`, not `"FAIL"`, so the status is not `"FAIL"` iff the
accumulated errors are non-empty. -/
theorem cpu_error_sample_status_ok_cex :
    errorsOf (run_cpu_test [.raises "boom" 0] 10 1).samples = ["boom"]
      ∧ (run_cpu_test [.raises "boom" 0] 10 1).status = "OK"
      ∧ (run_cpu_test [.raises "boom" 0] 10 1).status ≠ "FAIL" := by
  with_unfolding_all decide

/-- C1, amended: for the RAM test, the status is `"FAIL"` iff the
accumulated error list is non-empty and `"OK"` otherwise, computed from
the errors only (cancellation plays no part).  The CPU test, however,
returns status `"OK"` unconditionally, regardless of error samples in
its sample list. -/
theorem status_from_errors_amended :
    (∀ (available : Nat) (f g : Nat → Nat → Bool)
        (total_mb chunk_mb passes : Int) (e : ℚ),
        (run_ram_test available f g total_mb chunk_mb passes e).status
          = (if (run_ram_test available f g total_mb chunk_mb passes e).errors.isEmpty
              then "OK" else "FAIL"))
      ∧ (∀ (ticks : List TickEvent) (duration : Int) (workers : Nat),
          (run_cpu_test ticks duration workers).status = "OK") :=
  ⟨fun _ _ _ _ _ _ _ => rfl, fun _ _ _ => rfl⟩

/-! ## C2 -/

/-- C2, counterexample: a tick that raises is converted into an error
sample, but the loop then terminates — the subsequent (successful) tick
is never sampled; and a tick whose progress callback raises yields an
ordinary data sample, with no error entry at all.  Both refute the
claim that any tick exception becomes an error sample entry with
sampling continuing. -/
theorem sampling_tick_exception_cex :
    samplingLoop [.raises "boom" 5, .ok [50] 6] = [.err "boom" 5]
      ∧ errorsOf (samplingLoop [.okCallbackRaises [50] 1]) = [] := by
  with_unfolding_all decide

/-- C2, amended: an exception raised by the caller-supplied progress
callback is caught and swallowed (the measurement sample is kept, no
error entry is created) and sampling continues with subsequent ticks;
any other exception inside a sampling tick is caught and converted into
a sample entry carrying the error string and a timestamp, but it
terminates the sampling loop — no subsequent tick is sampled. -/
theorem sampling_exception_containment_amended :
    (∀ (ps : List ℚ) (ts : ℚ) (rest : List TickEvent),
        samplingLoop (.okCallbackRaises ps ts :: rest)
          = .data ps (cpuAvg ps) ts :: samplingLoop rest)
      ∧ (∀ (msg : String) (ts : ℚ) (rest : List TickEvent),
          samplingLoop (.raises msg ts :: rest) = [.err msg ts]) :=
  ⟨fun _ _ _ => rfl, fun _ _ _ => rfl⟩

/-! ## C5 -/

/-- C5: a CPU run with zero valid (non-error) samples aggregates to a
degenerate summary without raising: the overall average is `0.0`, the
per-core average list is empty (so every per-core average is trivially
`0.0`), and when the error list is empty the status is `"OK"`. -/
theorem cpu_zero_valid_samples_degenerate (ticks : List TickEvent)
    (duration : Int) (workers : Nat)
    (h : perCpuOf (samplingLoop ticks) = []) :
    (run_cpu_test ticks duration workers).avg_cpu_percent = 0
      ∧ (run_cpu_test ticks duration workers).per_cpu_percent = []
      ∧ (∀ x ∈ (run_cpu_test ticks duration workers).per_cpu_percent, x = 0)
      ∧ (errorsOf (run_cpu_test ticks duration workers).samples = []
          → (run_cpu_test ticks duration workers).status = "OK") := by
  have havg : avgOf (samplingLoop ticks) = [] := avgOf_eq_nil_of_perCpuOf_eq_nil h
  refine ⟨?_, ?_, ?_, fun _ => rfl⟩
  · simp [run_cpu_test, havg]
  · simp [run_cpu_test, h, perCoreAvg]
  · simp [run_cpu_test, h, perCoreAvg]

/-- C5, witness: the empty tick sequence (immediate cancellation before
the first tick) instantiates the degenerate-aggregation theorem. -/
theorem cpu_zero_valid_samples_degenerate_witness :
    (run_cpu_test [] 10 4).avg_cpu_percent = 0
      ∧ (run_cpu_test [] 10 4).per_cpu_percent = []
      ∧ (run_cpu_test [] 10 4).status = "OK" :=
  ⟨(cpu_zero_valid_samples_degenerate [] 10 4 rfl).1,
   (cpu_zero_valid_samples_degenerate [] 10 4 rfl).2.1,
   (cpu_zero_valid_samples_degenerate [] 10 4 rfl).2.2.2 rfl⟩

end ApplePi

namespace ApplePi

/-- When the loop condition `bytes_written < target_bytes` is already
false, the chunk loop returns its state unchanged (for any fuel). -/
theorem ramPassLoop_eq_of_not_lt {f g : Nat → Nat → Bool} {chunk : Nat}
    {target : Int} {p : Nat} {fuel bw : Nat} {st : RamState}
    (h : ¬((bw : Int) < target)) :
    ramPassLoop f g chunk target p fuel bw st = st := by
  cases fuel with
  | zero => rfl
  | succ fuel => simp only [ramPassLoop, if_neg h]

/-- The chunk loop never drives `tested_mb` above the clamped target
expressed in megabytes. -/
theorem ramPassLoop_tested_le (f g : Nat → Nat → Bool) (chunk : Nat)
    (target : Int) (p : Nat) :
    ∀ fuel bw st, st.tested_mb ≤ (target.toNat : ℚ) / (MB : ℚ) →
      (ramPassLoop f g chunk target p fuel bw st).tested_mb
        ≤ (target.toNat : ℚ) / (MB : ℚ) := by
  intro fuel
  induction fuel with
  | zero => intro bw st h; exact h
  | succ fuel ih =>
    intro bw st h
    simp only [ramPassLoop]
    by_cases hlt : (bw : Int) < target
    · rw [if_pos hlt]
      by_cases hal : f p bw = true
      · rw [if_pos hal]; exact h
      · rw [if_neg hal]
        apply ih
        show ((bw + min chunk (target - (bw : Int)).toNat : Nat) : ℚ) / (MB : ℚ)
          ≤ (target.toNat : ℚ) / (MB : ℚ)
        have hle : bw + min chunk (target - (bw : Int)).toNat ≤ target.toNat := by
          omega
        have hq : ((bw + min chunk (target - (bw : Int)).toNat : Nat) : ℚ)
            ≤ ((target.toNat : Nat) : ℚ) := by exact_mod_cast hle
        have hMB : (0 : ℚ) < (MB : ℚ) := by norm_num [MB]
        gcongr
    · rw [if_neg hlt]; exact h

end ApplePi

namespace ApplePi

/-- A pass in which no allocation fails and no mismatch is observed
appends no error entry. -/
theorem ramPassLoop_errors_clean {f g : Nat → Nat → Bool} (chunk : Nat)
    (target : Int) (p : Nat) (hf : ∀ off, f p off = false)
    (hg : ∀ off, g p off = false) :
    ∀ fuel bw st, (ramPassLoop f g chunk target p fuel bw st).errors = st.errors := by
  intro fuel
  induction fuel with
  | zero => intro bw st; rfl
  | succ fuel ih =>
    intro bw st
    simp only [ramPassLoop]
    by_cases hlt : (bw : Int) < target
    · rw [if_pos hlt, hf bw, if_neg Bool.false_ne_true, hg bw,
        if_neg Bool.false_ne_true, ih]
    · rw [if_neg hlt]

/-- With no allocation failure in pass `p` and a positive chunk size,
the chunk loop runs to completion: on exit `tested_mb` is exactly the
target expressed in megabytes (given enough fuel, which
`run_ram_test`'s choice `fuel = target_bytes` always is). -/
theorem ramPassLoop_tested_complete {f g : Nat → Nat → Bool} {chunk : Nat}
    {target : Int} {p : Nat} (hchunk : 0 < chunk)
    (hf : ∀ off, f p off = false) :
    ∀ (fuel bw : Nat) (st : RamState),
      (bw : Int) < target → (target - (bw : Int)).toNat ≤ fuel →
      (ramPassLoop f g chunk target p fuel bw st).tested_mb
        = (target.toNat : ℚ) / (MB : ℚ) := by
  intro fuel
  induction fuel with
  | zero => intro bw st hlt hfuel; omega
  | succ fuel ih =>
    intro bw st hlt hfuel
    simp only [ramPassLoop]
    rw [if_pos hlt, hf bw, if_neg Bool.false_ne_true]
    by_cases hlt2 : ((bw + min chunk (target - (bw : Int)).toNat : Nat) : Int) < target
    · exact ih _ _ hlt2 (by omega)
    · rw [ramPassLoop_eq_of_not_lt hlt2]
      show ((bw + min chunk (target - (bw : Int)).toNat : Nat) : ℚ) / (MB : ℚ)
        = (target.toNat : ℚ) / (MB : ℚ)
      have : bw + min chunk (target - (bw : Int)).toNat = target.toNat := by omega
      rw [this]

end ApplePi

namespace ApplePi

/-- Run-level bound: the reported `tested_mb` never exceeds the clamped
target expressed in megabytes, whatever the oracles do. -/
theorem run_ram_test_tested_le (available : Nat) (f g : Nat → Nat → Bool)
    (total_mb chunk_mb passes : Int) (e : ℚ) :
    (run_ram_test available f g total_mb chunk_mb passes e).tested_mb
      ≤ ((ramTarget available total_mb).toNat : ℚ) / (MB : ℚ) := by
  have hfold : ∀ (l : List Nat) (st : RamState),
      st.tested_mb ≤ ((ramTarget available total_mb).toNat : ℚ) / (MB : ℚ) →
      (List.foldl (fun st p => ramPassLoop f g ((max 1 chunk_mb).toNat * MB)
          (ramTarget available total_mb) p (ramTarget available total_mb).toNat 0 st)
        st l).tested_mb
        ≤ ((ramTarget available total_mb).toNat : ℚ) / (MB : ℚ) := by
    intro l
    induction l with
    | nil => intro st h; exact h
    | cons a l ih =>
      intro st h
      exact ih _ (ramPassLoop_tested_le f g _ _ a _ _ _ h)
  have h0 : (⟨[], [], 0⟩ : RamState).tested_mb
      ≤ ((ramTarget available total_mb).toNat : ℚ) / (MB : ℚ) := by
    show (0 : ℚ) ≤ _
    positivity
  exact hfold _ _ h0

/-- Run-level cleanliness: with no allocation failure and no mismatch
anywhere, the error list stays empty. -/
theorem run_ram_test_errors_clean (available : Nat) (f g : Nat → Nat → Bool)
    (total_mb chunk_mb passes : Int) (e : ℚ)
    (hf : ∀ p off, f p off = false) (hg : ∀ p off, g p off = false) :
    (run_ram_test available f g total_mb chunk_mb passes e).errors = [] := by
  have hfold : ∀ (l : List Nat) (st : RamState),
      (List.foldl (fun st p => ramPassLoop f g ((max 1 chunk_mb).toNat * MB)
          (ramTarget available total_mb) p (ramTarget available total_mb).toNat 0 st)
        st l).errors = st.errors := by
    intro l
    induction l with
    | nil => intro st; rfl
    | cons a l ih =>
      intro st
      rw [List.foldl_cons, ih, ramPassLoop_errors_clean _ _ a (hf a) (hg a)]
  exact hfold _ _

/-! ## C3 -/

/-- C3, counterexample: a clean two-pass run over a 2 MB clamped target
(available = 16 MB, so no clamping of the 2 MB request) reports
`tested_mb = 2`, the bytes of a single pass, not
`passes * clamped_target = 4` as the claim states — `bytes_written` is
reset at the start of every pass and `tested_mb` follows it. -/
theorem tested_mb_multipass_cex :
    (run_ram_test (16 * MB) (fun _ _ => false) (fun _ _ => false) 2 1 2 1).tested_mb = 2
      ∧ (run_ram_test (16 * MB) (fun _ _ => false) (fun _ _ => false) 2 1 2 1).tested_mb
          ≠ ((2 : ℚ) * 2) := by
  with_unfolding_all decide

/-- C3, amended: for every RAM run that completes without allocation
failure, `tested_mb` equals the clamped target size expressed in
megabytes — the bytes written and verified in the final pass — for any
number of passes (not the `passes`-fold cumulative total). -/
theorem tested_mb_single_pass_value (available : Nat) (f g : Nat → Nat → Bool)
    (total_mb chunk_mb passes : Int) (e : ℚ)
    (hf : ∀ p off, f p off = false) :
    (run_ram_test available f g total_mb chunk_mb passes e).tested_mb
      = ((ramTarget available total_mb).toNat : ℚ) / (MB : ℚ) := by
  have hchunk : 0 < (max 1 chunk_mb).toNat * MB := by
    have h1 : (1 : Int) ≤ max 1 chunk_mb := le_max_left _ _
    have h2 : 0 < (max 1 chunk_mb).toNat := by omega
    have hmb : 0 < MB := by norm_num [MB]
    exact Nat.mul_pos h2 hmb
  obtain ⟨m, hm⟩ : ∃ m, (max 1 passes).toNat = m + 1 := by
    have h1 : (1 : Int) ≤ max 1 passes := le_max_left _ _
    exact ⟨(max 1 passes).toNat - 1, by omega⟩
  show (List.foldl (fun st p => ramPassLoop f g ((max 1 chunk_mb).toNat * MB)
      (ramTarget available total_mb) p (ramTarget available total_mb).toNat 0 st)
      ⟨[], [], 0⟩ (List.range (max 1 passes).toNat)).tested_mb = _
  rw [hm, List.range_succ, List.foldl_append, List.foldl_cons, List.foldl_nil]
  by_cases hpos : (0 : Int) < ramTarget available total_mb
  · exact ramPassLoop_tested_complete hchunk (hf m) _ 0 _
      (by exact_mod_cast hpos) (by omega)
  · rw [ramPassLoop_eq_of_not_lt (by simpa using hpos)]
    have hid : ∀ (l : List Nat) (st : RamState),
        List.foldl (fun st p => ramPassLoop f g ((max 1 chunk_mb).toNat * MB)
          (ramTarget available total_mb) p (ramTarget available total_mb).toNat 0 st)
          st l = st := by
      intro l
      induction l with
      | nil => intro st; rfl
      | cons a l ih =>
        intro st
        rw [List.foldl_cons, ramPassLoop_eq_of_not_lt (by simpa using hpos), ih]
    rw [hid]
    show (0 : ℚ) = ((ramTarget available total_mb).toNat : ℚ) / (MB : ℚ)
    have hz : (ramTarget available total_mb).toNat = 0 := by omega
    rw [hz]
    norm_num

/-- C3, witness: the amended statement instantiated at the
counterexample's run (2 MB clamped target, two passes). -/
theorem tested_mb_single_pass_value_witness :
    (run_ram_test (16 * MB) (fun _ _ => false) (fun _ _ => false) 2 1 2 1).tested_mb
      = ((ramTarget (16 * MB) 2).toNat : ℚ) / (MB : ℚ) :=
  tested_mb_single_pass_value (16 * MB) (fun _ _ => false) (fun _ _ => false)
    2 1 2 1 (fun _ _ => rfl)

end ApplePi

namespace ApplePi

/-! ## C4 -/

/-- C4: when the requested size in bytes exceeds 75% of the available
memory read at run start, the target is reduced to that ceiling; the
returned `tested_mb` never exceeds the clamped target; and the clamping
alone does not fail the run (with clean oracles the status stays
`"OK"`). -/
theorem ram_clamp_and_bound (available : Nat) (f g : Nat → Nat → Bool)
    (total_mb chunk_mb passes : Int) (e : ℚ)
    (h : ramSafeLimit available < total_mb * (MB : Int)) :
    ramTarget available total_mb = ramSafeLimit available
      ∧ (run_ram_test available f g total_mb chunk_mb passes e).tested_mb
          ≤ ((ramSafeLimit available).toNat : ℚ) / (MB : ℚ)
      ∧ ((∀ p off, f p off = false) → (∀ p off, g p off = false) →
          (run_ram_test available f g total_mb chunk_mb passes e).status = "OK") := by
  have ht : ramTarget available total_mb = ramSafeLimit available := by
    simp only [ramTarget]
    rw [if_pos h]
  refine ⟨ht, ?_, fun hf hg => ?_⟩
  · have hle := run_ram_test_tested_le available f g total_mb chunk_mb passes e
    rwa [ht] at hle
  · rw [run_ram_test_status_def,
      run_ram_test_errors_clean available f g total_mb chunk_mb passes e hf hg]
    rfl

/-- C4, witness: requesting 16 MB with only 8 MB available (safe limit
6 MB) clamps the target to 6 MB, bounds `tested_mb` by 6 and keeps the
run `"OK"`. -/
theorem ram_clamp_and_bound_witness :
    ramTarget (8 * MB) 16 = ramSafeLimit (8 * MB)
      ∧ (run_ram_test (8 * MB) (fun _ _ => false) (fun _ _ => false) 16 1 1 1).tested_mb
          ≤ ((ramSafeLimit (8 * MB)).toNat : ℚ) / (MB : ℚ)
      ∧ (run_ram_test (8 * MB) (fun _ _ => false) (fun _ _ => false) 16 1 1 1).status
          = "OK" :=
  have h := ram_clamp_and_bound (8 * MB) (fun _ _ => false) (fun _ _ => false)
    16 1 1 1 (by decide)
  ⟨h.1, h.2.1, h.2.2 (fun _ _ => rfl) (fun _ _ => rfl)⟩

/-! ## C8 -/

/-- C8: the reported throughput is always `tested_mb` divided by the
elapsed wall-clock time floored at `1e-6` seconds, and that floored
time is strictly positive, so the division never divides by zero. -/
theorem ram_throughput_epsilon (available : Nat) (f g : Nat → Nat → Bool)
    (total_mb chunk_mb passes : Int) (e : ℚ) :
    (run_ram_test available f g total_mb chunk_mb passes e).throughput_mb_s
        = (run_ram_test available f g total_mb chunk_mb passes e).tested_mb
            / max (1 / 1000000 : ℚ) e
      ∧ (0 : ℚ) < max (1 / 1000000 : ℚ) e := by
  have hpos : (0 : ℚ) < max (1 / 1000000 : ℚ) e :=
    lt_of_lt_of_le (by norm_num) (le_max_left _ _)
  refine ⟨?_, hpos⟩
  simp only [run_ram_test]
  rw [if_pos hpos]

/-! ## C10 -/

/-- C10: a non-positive requested size produces a degenerate clean
result: the chunk loop never runs, so `tested_mb = 0`, no errors, no
samples and status `"OK"`. -/
theorem ram_nonpositive_total_degenerate (available : Nat)
    (f g : Nat → Nat → Bool) (total_mb chunk_mb passes : Int) (e : ℚ)
    (h : total_mb ≤ 0) :
    (run_ram_test available f g total_mb chunk_mb passes e).tested_mb = 0
      ∧ (run_ram_test available f g total_mb chunk_mb passes e).errors = []
      ∧ (run_ram_test available f g total_mb chunk_mb passes e).samples = []
      ∧ (run_ram_test available f g total_mb chunk_mb passes e).status = "OK" := by
  have htarget : ramTarget available total_mb ≤ 0 := by
    have hmb : (0 : Int) ≤ (MB : Int) := Int.natCast_nonneg _
    have h0 : total_mb * (MB : Int) ≤ 0 := mul_nonpos_of_nonpos_of_nonneg h hmb
    have hsafe : (0 : Int) ≤ ramSafeLimit available := Int.natCast_nonneg _
    simp only [ramTarget]
    rw [if_neg (by omega)]
    exact h0
  have hnotlt : ¬(((0 : Nat) : Int) < ramTarget available total_mb) := by
    simp only [Nat.cast_zero]
    omega
  have hid : ∀ (l : List Nat) (st : RamState),
      List.foldl (fun st p => ramPassLoop f g ((max 1 chunk_mb).toNat * MB)
        (ramTarget available total_mb) p (ramTarget available total_mb).toNat 0 st)
        st l = st := by
    intro l
    induction l with
    | nil => intro st; rfl
    | cons a l ih =>
      intro st
      rw [List.foldl_cons, ramPassLoop_eq_of_not_lt hnotlt, ih]
  have hrun : run_ram_test available f g total_mb chunk_mb passes e
      = ⟨"OK", 0, [], 0, []⟩ := by
    simp only [run_ram_test]
    rw [hid]
    simp [zero_div]
  rw [hrun]
  exact ⟨rfl, rfl, rfl, rfl⟩

/-- C10, witness: a run requesting `-5` MB returns the degenerate
clean result. -/
theorem ram_nonpositive_total_degenerate_witness :
    (run_ram_test 100 (fun _ _ => false) (fun _ _ => false) (-5) 16 1 1).tested_mb = 0
      ∧ (run_ram_test 100 (fun _ _ => false) (fun _ _ => false) (-5) 16 1 1).errors = []
      ∧ (run_ram_test 100 (fun _ _ => false) (fun _ _ => false) (-5) 16 1 1).samples = []
      ∧ (run_ram_test 100 (fun _ _ => false) (fun _ _ => false) (-5) 16 1 1).status
          = "OK" :=
  ram_nonpositive_total_degenerate 100 (fun _ _ => false) (fun _ _ => false)
    (-5) 16 1 1 (by decide)

end ApplePi

namespace ApplePi

/-- Two runs differing only in available memory, but agreeing on the
clamped target, produce identical results (`available` enters the run
only through the clamp). -/
theorem run_ram_test_target_congr {a1 a2 : Nat} (f g : Nat → Nat → Bool)
    (total_mb chunk_mb passes : Int) (e : ℚ)
    (h : ramTarget a1 total_mb = ramTarget a2 total_mb) :
    run_ram_test a1 f g total_mb chunk_mb passes e
      = run_ram_test a2 f g total_mb chunk_mb passes e := by
  simp only [run_ram_test, h]

/-- The C6 scenario evaluated at a fixed available memory of 128 MB
(safe limit 96 MB, so the 64 MB request is not clamped). -/
theorem ram_mismatch_offset0_concrete :
    (run_ram_test (128 * MB) (fun _ _ => false) (fun p off => p == 0 && off == 0)
        64 16 1 1).errors = ["Data mismatch at offset 0"]
      ∧ strContains "offset 0" "Data mismatch at offset 0" = true
      ∧ (run_ram_test (128 * MB) (fun _ _ => false) (fun p off => p == 0 && off == 0)
          64 16 1 1).status = "FAIL"
      ∧ (run_ram_test (128 * MB) (fun _ _ => false) (fun p off => p == 0 && off == 0)
          64 16 1 1).tested_mb = 64
      ∧ (run_ram_test (128 * MB) (fun _ _ => false) (fun p off => p == 0 && off == 0)
          64 16 1 1).tested_mb ≤ 64 := by
  with_unfolding_all decide

/-! ## C6 -/

/-- C6: the RAM run `total_mb=64, chunk_mb=16, passes=1` with a
verification mismatch injected at byte offset 0 of the first chunk only
(for any available memory large enough not to clamp the 64 MB request,
and any elapsed time) records exactly one error string — which contains
`"offset 0"` — does not abort (the remaining chunks are still tested,
`tested_mb = 64 ≤ 64`), and returns status `"FAIL"`. -/
theorem ram_mismatch_offset0_scenario (available : Nat) (e : ℚ)
    (h : (64 : Int) * MB ≤ ramSafeLimit available) :
    (run_ram_test available (fun _ _ => false) (fun p off => p == 0 && off == 0)
        64 16 1 e).errors = ["Data mismatch at offset 0"]
      ∧ strContains "offset 0" "Data mismatch at offset 0" = true
      ∧ (run_ram_test available (fun _ _ => false) (fun p off => p == 0 && off == 0)
          64 16 1 e).status = "FAIL"
      ∧ (run_ram_test available (fun _ _ => false) (fun p off => p == 0 && off == 0)
          64 16 1 e).tested_mb = 64
      ∧ (run_ram_test available (fun _ _ => false) (fun p off => p == 0 && off == 0)
          64 16 1 e).tested_mb ≤ 64 := by
  have ht : ramTarget available 64 = ramTarget (128 * MB) 64 := by
    have h1 : ramTarget available 64 = 64 * (MB : Int) := by
      simp only [ramTarget]
      rw [if_neg (not_lt.mpr h)]
    have h2 : ramTarget (128 * MB) 64 = 64 * (MB : Int) := by decide
    rw [h1, h2]
  rw [run_ram_test_target_congr _ _ 64 16 1 e ht]
  exact ram_mismatch_offset0_concrete

/-- C6, witness: the scenario theorem instantiated at 128 MB available
memory and a 1-second elapsed time. -/
theorem ram_mismatch_offset0_scenario_witness :
    (run_ram_test (128 * MB) (fun _ _ => false) (fun p off => p == 0 && off == 0)
        64 16 1 1).errors = ["Data mismatch at offset 0"]
      ∧ strContains "offset 0" "Data mismatch at offset 0" = true
      ∧ (run_ram_test (128 * MB) (fun _ _ => false) (fun p off => p == 0 && off == 0)
          64 16 1 1).status = "FAIL"
      ∧ (run_ram_test (128 * MB) (fun _ _ => false) (fun p off => p == 0 && off == 0)
          64 16 1 1).tested_mb = 64
      ∧ (run_ram_test (128 * MB) (fun _ _ => false) (fun p off => p == 0 && off == 0)
          64 16 1 1).tested_mb ≤ 64 :=
  ram_mismatch_offset0_scenario (128 * MB) 1 (by decide)

end ApplePi

namespace ApplePi

/-- The `except MemoryError` branch of the chunk loop: whenever the
loop condition holds and the allocation at the current offset fails,
the loop appends one error entry carrying that byte offset and returns
at once — the chunk loop of the current pass breaks, with the rest of
the state untouched. -/
theorem ramPassLoop_break (f g : Nat → Nat → Bool) (chunk : Nat) (target : Int)
    (p fuel bw : Nat) (st : RamState) (hlt : (bw : Int) < target)
    (hf : f p bw = true) :
    ramPassLoop f g chunk target p (fuel + 1) bw st
      = { st with errors := st.errors
          ++ ["Allocation failed at " ++ toString bw ++ " bytes"] } := by
  simp only [ramPassLoop]
  rw [if_pos hlt, if_pos hf]

/-- Running the chunk loop of pass `p` from the chunk boundary
`(k - d) * C` when the pass's only allocation failure sits at boundary
`k * C < target`: the loop walks the remaining `d` clean chunks, hits
the failure, appends exactly one offset-bearing error entry and
stops. -/
theorem ramPassLoop_single_failure_errors (f g : Nat → Nat → Bool) (C : Nat)
    (T : Int) (p k : Nat) (hC : 0 < C)
    (hf : ∀ off, f p off = (off == k * C))
    (hg : ∀ off, g p off = false)
    (hk : ((k * C : Nat) : Int) < T) :
    ∀ (d fuel : Nat) (st : RamState), d ≤ k → d + 1 ≤ fuel →
      (ramPassLoop f g C T p fuel ((k - d) * C) st).errors
        = st.errors ++ ["Allocation failed at " ++ toString (k * C) ++ " bytes"] := by
  intro d
  induction d with
  | zero =>
    intro fuel st hdk hfuel
    obtain ⟨fuel1, rfl⟩ : ∃ m, fuel = m + 1 := ⟨fuel - 1, by omega⟩
    rw [Nat.sub_zero, ramPassLoop_break f g C T p fuel1 (k * C) st hk
      (by rw [hf]; exact beq_self_eq_true _)]
  | succ d ih =>
    intro fuel st hdk hfuel
    obtain ⟨fuel1, rfl⟩ : ∃ m, fuel = m + 1 := ⟨fuel - 1, by omega⟩
    have hjc : (k - (d + 1)) * C + C = (k - d) * C := by
      have h1 : k - (d + 1) + 1 = k - d := by omega
      calc (k - (d + 1)) * C + C = (k - (d + 1) + 1) * C := by ring
        _ = (k - d) * C := by rw [h1]
    have hle : (k - (d + 1)) * C + C ≤ k * C := by
      rw [hjc]
      exact Nat.mul_le_mul_right C (by omega)
    have hltk : (k - (d + 1)) * C < k * C := by omega
    have hlt : (((k - (d + 1)) * C : Nat) : Int) < T := by omega
    simp only [ramPassLoop]
    rw [if_pos hlt, hf ((k - (d + 1)) * C),
      beq_eq_false_iff_ne.mpr (Nat.ne_of_lt hltk), if_neg Bool.false_ne_true,
      hg ((k - (d + 1)) * C), if_neg Bool.false_ne_true]
    have htoAlloc : min C (T - (((k - (d + 1)) * C : Nat) : Int)).toNat = C := by
      omega
    rw [htoAlloc, hjc, ih fuel1 _ (by omega) (by omega)]

/-- `sub` occurs at the head of `sub ++ suf`. -/
theorem occursAtHead_self_append :
    ∀ (sub suf : List Char), occursAtHead sub (sub ++ suf) = true
  | [], _ => rfl
  | a :: as, suf => by
    simp only [List.cons_append, occursAtHead, beq_self_eq_true, Bool.true_and]
    exact occursAtHead_self_append as suf

/-- `sub` occurs inside any list of the shape `pre ++ sub ++ suf`. -/
theorem occursIn_sandwich (sub : List Char) :
    ∀ (pre suf : List Char), occursIn sub (pre ++ sub ++ suf) = true := by
  intro pre
  induction pre with
  | nil =>
    intro suf
    cases sub with
    | nil =>
      cases suf with
      | nil => rfl
      | cons c cs => rfl
    | cons a as =>
      have hhead := occursAtHead_self_append (a :: as) suf
      simp only [List.cons_append] at hhead
      simp only [List.nil_append, List.cons_append, occursIn, List.append_eq,
        hhead, Bool.true_or]
  | cons c pre ih =>
    intro suf
    simp only [List.cons_append, occursIn, List.append_eq]
    rw [ih suf]
    exact Bool.or_true _

/-- A string of the shape `pre ++ sub ++ suf` contains `sub`. -/
theorem strContains_sandwich (pre sub suf : String) :
    strContains sub (pre ++ sub ++ suf) = true := by
  show occursIn sub.toList (pre ++ sub ++ suf).toList = true
  have h : (pre ++ sub ++ suf).toList = pre.toList ++ sub.toList ++ suf.toList := by
    simp [String.toList]
  rw [h]
  exact occursIn_sandwich sub.toList pre.toList suf.toList

/-! ## C7 -/

/-- C7: allocation failure is contained to its pass, universally.
First conjunct: for every chunk loop state in every run, if the
allocation at the current offset fails, the loop records one error
entry carrying that byte offset and breaks at once (the model being a
total function, the run never raises).  Remaining conjuncts: every RAM
run — any available memory, request, chunk size, pass count and
elapsed time — whose single allocation failure sits at chunk boundary
`k * chunk_bytes` of pass `p₀` (a boundary the pass actually reaches,
`hoff`) and which has at least one later pass (`hp`) returns exactly
that one offset-bearing error entry, status `"FAIL"`, and a
`tested_mb` equal to the full clamped target in megabytes — the later
passes ran to completion even though pass `p₀` was cut short. -/
theorem ram_alloc_failure_pass_containment (available : Nat)
    (total_mb chunk_mb passes : Int) (e : ℚ) (p₀ k : Nat)
    (hp : p₀ + 1 < (max 1 passes).toNat)
    (hoff : ((k * ((max 1 chunk_mb).toNat * MB) : Nat) : Int)
        < ramTarget available total_mb) :
    (∀ (f g : Nat → Nat → Bool) (chunk : Nat) (target : Int)
        (p fuel bw : Nat) (st : RamState),
        (bw : Int) < target → f p bw = true →
        ramPassLoop f g chunk target p (fuel + 1) bw st
          = { st with errors := st.errors
              ++ ["Allocation failed at " ++ toString bw ++ " bytes"] })
      ∧ (run_ram_test available
            (singleAllocFailure p₀ (k * ((max 1 chunk_mb).toNat * MB)))
            (fun _ _ => false) total_mb chunk_mb passes e).errors
          = ["Allocation failed at "
              ++ toString (k * ((max 1 chunk_mb).toNat * MB)) ++ " bytes"]
      ∧ strContains (toString (k * ((max 1 chunk_mb).toNat * MB)))
          ("Allocation failed at "
            ++ toString (k * ((max 1 chunk_mb).toNat * MB)) ++ " bytes") = true
      ∧ (run_ram_test available
            (singleAllocFailure p₀ (k * ((max 1 chunk_mb).toNat * MB)))
            (fun _ _ => false) total_mb chunk_mb passes e).tested_mb
          = ((ramTarget available total_mb).toNat : ℚ) / (MB : ℚ)
      ∧ (run_ram_test available
            (singleAllocFailure p₀ (k * ((max 1 chunk_mb).toNat * MB)))
            (fun _ _ => false) total_mb chunk_mb passes e).status = "FAIL" := by
  have hCpos : 0 < (max 1 chunk_mb).toNat * MB := by
    have h1 : (1 : Int) ≤ max 1 chunk_mb := le_max_left _ _
    have h2 : 0 < (max 1 chunk_mb).toNat := by omega
    have hmb : 0 < MB := by norm_num [MB]
    exact Nat.mul_pos h2 hmb
  have hkk : k ≤ k * ((max 1 chunk_mb).toNat * MB) :=
    Nat.le_mul_of_pos_right k hCpos
  have hfuelk : k + 1 ≤ (ramTarget available total_mb).toNat := by omega
  have hfspec : ∀ off,
      singleAllocFailure p₀ (k * ((max 1 chunk_mb).toNat * MB)) p₀ off
        = (off == k * ((max 1 chunk_mb).toNat * MB)) := by
    intro off
    simp [singleAllocFailure]
  have hfother : ∀ q, q ≠ p₀ → ∀ off,
      singleAllocFailure p₀ (k * ((max 1 chunk_mb).toNat * MB)) q off = false := by
    intro q hq off
    simp only [singleAllocFailure, beq_eq_false_iff_ne.mpr hq, Bool.false_and]
  have hclean_fold : ∀ (l : List Nat), (∀ q ∈ l, q ≠ p₀) → ∀ st : RamState,
      (List.foldl (fun st p => ramPassLoop
          (singleAllocFailure p₀ (k * ((max 1 chunk_mb).toNat * MB)))
          (fun _ _ => false) ((max 1 chunk_mb).toNat * MB)
          (ramTarget available total_mb) p
          (ramTarget available total_mb).toNat 0 st) st l).errors = st.errors := by
    intro l
    induction l with
    | nil => intro hl st; rfl
    | cons a l ih =>
      intro hl st
      rw [List.foldl_cons, ih (fun q hq => hl q (List.mem_cons_of_mem a hq)),
        ramPassLoop_errors_clean _ _ a (hfother a (hl a (List.mem_cons_self a l)))
          (fun _ => rfl)]
  have hpass : ∀ st : RamState,
      (ramPassLoop (singleAllocFailure p₀ (k * ((max 1 chunk_mb).toNat * MB)))
          (fun _ _ => false) ((max 1 chunk_mb).toNat * MB)
          (ramTarget available total_mb) p₀
          (ramTarget available total_mb).toNat 0 st).errors
        = st.errors ++ ["Allocation failed at "
            ++ toString (k * ((max 1 chunk_mb).toNat * MB)) ++ " bytes"] := by
    intro st
    have h := ramPassLoop_single_failure_errors
      (singleAllocFailure p₀ (k * ((max 1 chunk_mb).toNat * MB)))
      (fun _ _ => false) ((max 1 chunk_mb).toNat * MB)
      (ramTarget available total_mb) p₀ k hCpos hfspec (fun _ => rfl) hoff
      k (ramTarget available total_mb).toNat st (le_refl k) hfuelk
    simpa using h
  have herr : (run_ram_test available
      (singleAllocFailure p₀ (k * ((max 1 chunk_mb).toNat * MB)))
      (fun _ _ => false) total_mb chunk_mb passes e).errors
      = ["Allocation failed at "
          ++ toString (k * ((max 1 chunk_mb).toNat * MB)) ++ " bytes"] := by
    show (List.foldl (fun st p => ramPassLoop
        (singleAllocFailure p₀ (k * ((max 1 chunk_mb).toNat * MB)))
        (fun _ _ => false) ((max 1 chunk_mb).toNat * MB)
        (ramTarget available total_mb) p
        (ramTarget available total_mb).toNat 0 st) ⟨[], [], 0⟩
        (List.range ((max 1 passes).toNat))).errors = _
    have hnsplit : List.range ((max 1 passes).toNat)
        = (List.range p₀ ++ [p₀])
          ++ (List.range ((max 1 passes).toNat - (p₀ + 1))).map ((p₀ + 1) + ·) := by
      rw [← List.range_succ, ← List.range_add]
      congr 1
      omega
    have hmapped : ∀ q ∈ (List.range ((max 1 passes).toNat - (p₀ + 1))).map
        ((p₀ + 1) + ·), q ≠ p₀ := by
      intro q hq
      obtain ⟨i, _, rfl⟩ := List.mem_map.mp hq
      omega
    have hrangep : ∀ q ∈ List.range p₀, q ≠ p₀ := by
      intro q hq
      have := List.mem_range.mp hq
      omega
    rw [hnsplit]
    simp only [List.foldl_append, List.foldl_cons, List.foldl_nil]
    rw [hclean_fold _ hmapped, hpass, hclean_fold _ hrangep]
    rfl
  have htested : (run_ram_test available
      (singleAllocFailure p₀ (k * ((max 1 chunk_mb).toNat * MB)))
      (fun _ _ => false) total_mb chunk_mb passes e).tested_mb
      = ((ramTarget available total_mb).toNat : ℚ) / (MB : ℚ) := by
    show (List.foldl (fun st p => ramPassLoop
        (singleAllocFailure p₀ (k * ((max 1 chunk_mb).toNat * MB)))
        (fun _ _ => false) ((max 1 chunk_mb).toNat * MB)
        (ramTarget available total_mb) p
        (ramTarget available total_mb).toNat 0 st) ⟨[], [], 0⟩
        (List.range ((max 1 passes).toNat))).tested_mb = _
    obtain ⟨m, hm⟩ : ∃ m, (max 1 passes).toNat = m + 1 :=
      ⟨(max 1 passes).toNat - 1, by omega⟩
    rw [hm, List.range_succ]
    simp only [List.foldl_append, List.foldl_cons, List.foldl_nil]
    exact ramPassLoop_tested_complete hCpos (hfother m (by omega)) _ 0 _
      (by omega) (by omega)
  refine ⟨fun f g chunk target p fuel bw st hlt hf =>
      ramPassLoop_break f g chunk target p fuel bw st hlt hf,
    herr, strContains_sandwich "Allocation failed at " _ " bytes", htested, ?_⟩
  rw [run_ram_test_status_def, herr]
  rfl

/-- C7, witness: a two-pass 2 MB run (chunk 1 MB, 16 MB available so
no clamping) whose first pass fails to allocate its second chunk, at
byte offset `1 * 1 MB`. -/
theorem ram_alloc_failure_pass_containment_witness :
    (run_ram_test (16 * MB)
        (singleAllocFailure 0 (1 * ((max 1 (1 : Int)).toNat * MB)))
        (fun _ _ => false) 2 1 2 1).errors
      = ["Allocation failed at "
          ++ toString (1 * ((max 1 (1 : Int)).toNat * MB)) ++ " bytes"]
    ∧ strContains (toString (1 * ((max 1 (1 : Int)).toNat * MB)))
        ("Allocation failed at "
          ++ toString (1 * ((max 1 (1 : Int)).toNat * MB)) ++ " bytes") = true
    ∧ (run_ram_test (16 * MB)
        (singleAllocFailure 0 (1 * ((max 1 (1 : Int)).toNat * MB)))
        (fun _ _ => false) 2 1 2 1).tested_mb
      = ((ramTarget (16 * MB) 2).toNat : ℚ) / (MB : ℚ)
    ∧ (run_ram_test (16 * MB)
        (singleAllocFailure 0 (1 * ((max 1 (1 : Int)).toNat * MB)))
        (fun _ _ => false) 2 1 2 1).status = "FAIL" :=
  have h := ram_alloc_failure_pass_containment (16 * MB) 2 1 2 1 0 1
    (by decide) (by decide)
  ⟨h.2.1, h.2.2.1, h.2.2.2.1, h.2.2.2.2⟩

/-! ## C9 -/

/-- C9: `_make_pattern(n)` returns a buffer of length exactly `n`
whose byte at every index `i < n` is `(i * 31 + 17) mod 256`; the
pattern is a function of the size alone. -/
theorem make_pattern_spec (n : Nat) :
    (make_pattern n).length = n
      ∧ ∀ i, i < n → (make_pattern n).getD i 0 = (i * 31 + 17) % 256 := by
  refine ⟨by simp [make_pattern], fun i hi => ?_⟩
  have hlen : i < (make_pattern n).length := by simpa [make_pattern] using hi
  rw [List.getD_eq_getElem _ _ hlen]
  simp [make_pattern]

/-- C9, witness: the pattern of size 4 has length 4 and its byte at
index 2 is `(2 * 31 + 17) % 256 = 79`. -/
theorem make_pattern_spec_witness :
    (make_pattern 4).length = 4
      ∧ (make_pattern 4).getD 2 0 = (2 * 31 + 17) % 256 :=
  ⟨(make_pattern_spec 4).1, (make_pattern_spec 4).2 2 (by decide)⟩

end ApplePi
